import Mathlib

/-!
Verification of the template-to-construction-program compiler from
`src/proc-quote-impl/src/proc_quote.rs`.

The token-tree data model (proc_macro2) is embedded as `Tok`; spans are
opaque `Nat` handles.  The compiler emits generated Rust code via `quote!`
and `quote_spanned!`; each emitted statement is modelled as one `Instr`
value recording the data baked into that statement (identifier text,
punctuation character and spacing, literal classification, group nesting,
loop shape) together with the span that `quote_spanned!` attaches to the
generated tokens (`emitSpan`).  Fallible steps return `PRes`, whose
`panicked` constructor models a Rust `panic!`.
-/

namespace ProcQuote

/-- Spacing of a punctuation token, as in proc_macro2. -/
inductive Spacing where
  | alone
  | joint
deriving DecidableEq, Repr

/-- Group delimiter, as in proc_macro2. -/
inductive Delim where
  | paren
  | brace
  | bracket
  | none
deriving DecidableEq, Repr

/-- Token tree consumed by the compiler: identifiers, punctuation,
literals (carrying their raw text, the result of `Literal::to_string`),
and delimited groups.  Spans are opaque `Nat` handles. -/
inductive Tok where
  | ident (name : String) (span : Nat)
  | punct (ch : Char) (spacing : Spacing) (span : Nat)
  | lit (raw : String) (span : Nat)
  | group (delim : Delim) (stream : List Tok) (span : Nat)
deriving Repr

/-- Span expression appearing as an argument inside generated code:
either `Span::call_site()` or a span taken from the template. -/
inductive RtSpan where
  | callSite
  | fromTemplate (n : Nat)
deriving DecidableEq, Repr

/-- The `Error` struct of the source: start span, optional end span,
fixed message. -/
structure Err where
  spanS : Nat
  spanE : Option Nat
  msg : String
deriving DecidableEq, Repr

/-- Models `Error::new`. -/
def Err.new (span : Nat) (msg : String) : Err :=
  { spanS := span, spanE := Option.none, msg := msg }

/-- Models `Error::end_span`. -/
def Err.endSpan (e : Err) (span : Nat) : Err :=
  { e with spanE := some span }

/-- Result of a compiler sub-step: success, an `Error` propagated through
the `Result` type of the source, or a Rust `panic!` escaping outward. -/
inductive PRes (α : Type) where
  | ok (a : α)
  | err (e : Err)
  | panicked (m : String)

/-- One emitted construction instruction.  Each constructor corresponds to
one generated `::proc_quote::__rt::...` call (or generated loop) appended
by the source; `emitSpan` is the span `quote_spanned!` puts on the
generated tokens of that statement. -/
inductive Instr where
  | appendIdent (text : String) (argSpan : RtSpan) (emitSpan : Nat)
  | appendPunct (ch : Char) (spacing : Spacing) (emitSpan : Nat)
  | appendToTokensLit (raw : String) (emitSpan : Nat)
  | appendLitI32 (i : Int) (emitSpan : Nat)
  | appendLitI64 (i : Int) (emitSpan : Nat)
  | appendLitU64 (u : Nat) (emitSpan : Nat)
  | appendLitF64 (raw : String) (emitSpan : Nat)
  | appendGroup (delim : Delim) (inner : List Instr) (emitSpan : Nat)
  | appendToTokensIdent (name : String) (emitSpan : Nat)
  | forLoop (names : List String) (body : List Instr)
  | forLoopSep (names : List String) (sep : List Instr) (body : List Instr)
deriving Repr

/-- Span carried by the last generated token of an instruction; for every
append instruction this is the `quote_spanned!` span.  The loop
constructors are generated with plain `quote!` (call-site spans), encoded
here as `0`; they never occur at the top level of a separator stream. -/
def instrSpan : Instr → Nat
  | .appendIdent _ _ s => s
  | .appendPunct _ _ s => s
  | .appendToTokensLit _ s => s
  | .appendLitI32 _ s => s
  | .appendLitI64 _ s => s
  | .appendLitU64 _ s => s
  | .appendLitF64 _ s => s
  | .appendGroup _ _ s => s
  | .appendToTokensIdent _ s => s
  | .forLoop _ _ => 0
  | .forLoopSep _ _ _ => 0

/-- Span of the last token of an emitted stream, models
`separator.into_iter().last().map(|s| s.span()).unwrap_or(dflt)`. -/
def lastSpan (instrs : List Instr) (dflt : Nat) : Nat :=
  match instrs.getLast? with
  | some i => instrSpan i
  | Option.none => dflt

/-! Models of the external Rust standard-library parsers used by
`parse_literal` (`str::parse::<i32/i64/u64/f64>`), following their
documented grammars: an optional sign, then decimal digits (no
underscores, no radix prefixes); floats additionally accept a fractional
part, an exponent, and the keywords inf, infinity, nan. -/

/-- Numeric value of a decimal digit character. -/
def digitVal (c : Char) : Nat := c.toNat - 48

/-- Value of a nonempty all-decimal-digit string. -/
def digitsVal (cs : List Char) : Option Nat :=
  if cs.isEmpty then Option.none
  else if cs.all Char.isDigit then some (cs.foldl (fun n c => n * 10 + digitVal c) 0)
  else Option.none

/-- A signed decimal integer parse with the given inclusive range. -/
def rustParseIntRange (lo hi : Int) (cs : List Char) : Option Int :=
  let core : Int → List Char → Option Int := fun sign ds =>
    match digitsVal ds with
    | some n =>
      let v : Int := sign * (n : Int)
      if lo ≤ v ∧ v ≤ hi then some v else Option.none
    | Option.none => Option.none
  match cs with
  | '+' :: t => core 1 t
  | '-' :: t => core (-1) t
  | t => core 1 t

/-- Models `str::parse::<i32>`. -/
def rustParseI32 (cs : List Char) : Option Int :=
  rustParseIntRange (-(2 ^ 31)) (2 ^ 31 - 1) cs

/-- Models `str::parse::<i64>`. -/
def rustParseI64 (cs : List Char) : Option Int :=
  rustParseIntRange (-(2 ^ 63)) (2 ^ 63 - 1) cs

/-- Models `str::parse::<u64>`: no minus sign accepted. -/
def rustParseU64 (cs : List Char) : Option Nat :=
  let core : List Char → Option Nat := fun ds =>
    match digitsVal ds with
    | some n => if n ≤ 2 ^ 64 - 1 then some n else Option.none
    | Option.none => Option.none
  match cs with
  | '+' :: t => core t
  | '-' :: _ => Option.none
  | t => core t

/-- Recognizer for the documented grammar of `str::parse::<f64>`.  The
floating-point value itself is not modelled; classification only needs
acceptance. -/
def rustParseF64Accepts (cs : List Char) : Bool :=
  let body := match cs with
    | '+' :: t => t
    | '-' :: t => t
    | t => t
  let lower := body.map Char.toLower
  if lower = ['i', 'n', 'f'] ∨ lower = ['i', 'n', 'f', 'i', 'n', 'i', 't', 'y'] ∨
      lower = ['n', 'a', 'n'] then
    true
  else
    let p1 := body.span Char.isDigit
    let afterInt := p1.2
    let hasDot := match afterInt with
      | '.' :: _ => true
      | _ => false
    let p2 := match afterInt with
      | '.' :: t => t.span Char.isDigit
      | _ => ([], afterInt)
    let mantissaOk := !p1.1.isEmpty || (hasDot && !p2.1.isEmpty)
    match p2.2 with
    | [] => mantissaOk
    | e :: t =>
      if e = 'e' ∨ e = 'E' then
        let t2 := match t with
          | '+' :: u => u
          | '-' :: u => u
          | u => u
        let p3 := t2.span Char.isDigit
        mantissaOk && !p3.1.isEmpty && p3.2.isEmpty
      else
        false

/-- The fixed list of textual endings that make `parse_literal` treat a
literal as pass-through, exactly as listed in the source. -/
def litSuffixes : List (List Char) :=
  [['u', '8'], ['u', '1', '6'], ['u', '3', '2'], ['u', '6', '4'], ['u', '1', '2', '8'],
   ['u', 's', 'i', 'z', 'e'], ['i', '8'], ['i', '1', '6'], ['i', '3', '2'], ['i', '6', '4'],
   ['i', '1', '2', '8'], ['i', 's', 'i', 'z', 'e'], ['f', '3', '2'], ['f', '6', '4'],
   [Char.ofNat 34], [Char.ofNat 39], ['#']]

/-- Models `lit_to_string.ends_with(suffix)` tried over `litSuffixes`. -/
def endsWithSuffix (raw : String) : Bool :=
  litSuffixes.any (fun suf => suf.isSuffixOf raw.data)

/-- Message of the panic branch of `parse_literal` (text abridged). -/
def msgUnparsableLiteral : String := "Unable to parse this literal."

/-- Message of the nested-repetition error. -/
def msgNested : String := "Nested iterator patterns not supported."

/-- Message of the empty-repetition error. -/
def msgEmpty : String := "Expected at least one iterator inside pattern."

/-- Message of the unterminated-repetition error. -/
def msgUnterminated : String := "Iterating interpolation does not have `*` symbol."

/-- Models `parse_ident`: emits `append_ident(&mut __stream, #ident,
Span::call_site())` spanned at the identifier span. -/
def parseIdent (name : String) (span : Nat) : Instr :=
  .appendIdent name RtSpan.callSite span

/-- Models `parse_punct`: emits `append_punct(&mut __stream, #punct,
Alone/Joint)` spanned at the punct span. -/
def parsePunct (ch : Char) (spacing : Spacing) (span : Nat) : Instr :=
  .appendPunct ch spacing span

/-- Models `interpolate_to_tokens_ident`: emits `append_to_tokens(&mut
__stream, & #ident)` spanned at the identifier span. -/
def interpolateToTokensIdent (name : String) (span : Nat) : Instr :=
  .appendToTokensIdent name span

/-- Models `parse_literal`: pass-through when the raw text ends with a
recognized suffix or quote form, otherwise classification as i32, i64,
u64 unsuffixed integer or f64 unsuffixed float, first parse winning; the
final branch is the `panic!` of the source. -/
def parseLiteral (raw : String) (span : Nat) : PRes Instr :=
  if endsWithSuffix raw then
    .ok (.appendToTokensLit raw span)
  else
    match rustParseI32 raw.data with
    | some i => .ok (.appendLitI32 i span)
    | Option.none =>
      match rustParseI64 raw.data with
      | some i => .ok (.appendLitI64 i span)
      | Option.none =>
        match rustParseU64 raw.data with
        | some u => .ok (.appendLitU64 u span)
        | Option.none =>
          if rustParseF64Accepts raw.data then .ok (.appendLitF64 raw span)
          else .panicked msgUnparsableLiteral

/-- Models `parse_group_inner`: wraps an already-emitted inner program in
an `append_group` call spanned at the group span.  The `__stream` header
block that `generate_quote_header` puts around the inner program is
implicit in the nesting. -/
def parseGroupInner (inner : List Instr) (delim : Delim) (groupSpan : Nat) : Instr :=
  .appendGroup delim inner groupSpan

/-- Helper inequality for the termination measure. -/
theorem sizeOf_tail_le (t : Tok) (l : List Tok) : sizeOf l ≤ sizeOf (t :: l) := by
  simp_arith

mutual

/-- Models `parse_token_stream`: the main recursive walk.  The lookahead
dispatch of `interpolation_pattern_type` is inlined in the punctuation
patterns: a `#` directly followed by an identifier is a scalar
interpolation, a `#` directly followed by a parenthesized group starts a
repetition pattern (whose separator clause is consumed by
`parseSeparator`), and any other punctuation is emitted literally. -/
def parseTokenStream : List Tok → PRes (List Instr)
  | [] => .ok []
  | .group d ts gsp :: rest =>
    match parseGroup d ts gsp with
    | .ok g =>
      match parseTokenStream rest with
      | .ok out => .ok (g :: out)
      | .err e => .err e
      | .panicked m => .panicked m
    | .err e => .err e
    | .panicked m => .panicked m
  | .ident name sp :: rest =>
    match parseTokenStream rest with
    | .ok out => .ok (parseIdent name sp :: out)
    | .err e => .err e
    | .panicked m => .panicked m
  | .lit raw sp :: rest =>
    match parseLiteral raw sp with
    | .ok i =>
      match parseTokenStream rest with
      | .ok out => .ok (i :: out)
      | .err e => .err e
      | .panicked m => .panicked m
    | .err e => .err e
    | .panicked m => .panicked m
  | .punct '#' _ _ :: .ident name isp :: rest =>
    match parseTokenStream rest with
    | .ok out => .ok (interpolateToTokensIdent name isp :: out)
    | .err e => .err e
    | .panicked m => .panicked m
  | .punct '#' _ _ :: .group .paren ts gsp :: rest =>
    match parseSeparator rest gsp with
    | .ok (sep, ⟨r, _⟩) =>
      match interpolateIteratorGroup ts gsp sep with
      | .ok loopInstr =>
        match parseTokenStream r with
        | .ok out => .ok (loopInstr :: out)
        | .err e => .err e
        | .panicked m => .panicked m
      | .err e => .err e
      | .panicked m => .panicked m
    | .err e => .err e
    | .panicked m => .panicked m
  | .punct ch spc sp :: rest =>
    match parseTokenStream rest with
    | .ok out => .ok (parsePunct ch spc sp :: out)
    | .err e => .err e
    | .panicked m => .panicked m
termination_by input => (sizeOf input, 0)

/-- Models `parse_group`: recursively walks the group content in normal
mode and wraps it. -/
def parseGroup (delim : Delim) (ts : List Tok) (gspan : Nat) : PRes Instr :=
  match parseTokenStream ts with
  | .ok inner => .ok (parseGroupInner inner delim gspan)
  | .err e => .err e
  | .panicked m => .panicked m
termination_by (sizeOf ts, 1)

/-- Models `parse_token_stream_in_iterator_pattern`: the restricted walk
inside a repetition sub-template.  It additionally threads the ordered
list of identifiers consumed as scalar interpolations (`iter_idents`),
appending a name only when it is not already recorded, and rejects any
inner repetition pattern with the nested-repetition error whose end span
is the span of the last token of the inner separator emission. -/
def parseTokenStreamInIteratorPattern :
    List Tok → List String → PRes (List Instr × List String)
  | [], acc => .ok ([], acc)
  | .group d ts gsp :: rest, acc =>
    match parseGroupInIteratorPattern d ts gsp acc with
    | .ok (g, acc2) =>
      match parseTokenStreamInIteratorPattern rest acc2 with
      | .ok (out, acc3) => .ok (g :: out, acc3)
      | .err e => .err e
      | .panicked m => .panicked m
    | .err e => .err e
    | .panicked m => .panicked m
  | .ident name sp :: rest, acc =>
    match parseTokenStreamInIteratorPattern rest acc with
    | .ok (out, acc2) => .ok (parseIdent name sp :: out, acc2)
    | .err e => .err e
    | .panicked m => .panicked m
  | .lit raw sp :: rest, acc =>
    match parseLiteral raw sp with
    | .ok i =>
      match parseTokenStreamInIteratorPattern rest acc with
      | .ok (out, acc2) => .ok (i :: out, acc2)
      | .err e => .err e
      | .panicked m => .panicked m
    | .err e => .err e
    | .panicked m => .panicked m
  | .punct '#' _ _ :: .ident name isp :: rest, acc =>
    match parseTokenStreamInIteratorPattern rest
        (if name ∈ acc then acc else acc ++ [name]) with
    | .ok (out, acc2) => .ok (interpolateToTokensIdent name isp :: out, acc2)
    | .err e => .err e
    | .panicked m => .panicked m
  | .punct '#' _ _ :: .group .paren _ gsp :: rest, _ =>
    match parseSeparator rest gsp with
    | .ok (sep, _) => .err ((Err.new gsp msgNested).endSpan (lastSpan sep gsp))
    | .err e => .err e
    | .panicked m => .panicked m
  | .punct ch spc sp :: rest, acc =>
    match parseTokenStreamInIteratorPattern rest acc with
    | .ok (out, acc2) => .ok (parsePunct ch spc sp :: out, acc2)
    | .err e => .err e
    | .panicked m => .panicked m
termination_by input _ => (sizeOf input, 0)

/-- Models `parse_group_in_iterator_pattern`. -/
def parseGroupInIteratorPattern (delim : Delim) (ts : List Tok) (gspan : Nat)
    (acc : List String) : PRes (Instr × List String) :=
  match parseTokenStreamInIteratorPattern ts acc with
  | .ok (inner, acc2) => .ok (parseGroupInner inner delim gspan, acc2)
  | .err e => .err e
  | .panicked m => .panicked m
termination_by (sizeOf ts, 1)

/-- Models `parse_separator`: consumes sibling tokens after the
parenthesized sub-template, emitting them as template tokens, until a
top-level `*` punctuation terminates the pattern; an inner repetition
pattern is rejected as nested, and exhausting the input yields the
unterminated-repetition error anchored at `iteratorsSpan`.  The returned
remainder carries a size bound used only for termination. -/
def parseSeparator :
    (input : List Tok) → Nat → PRes (List Instr × {r : List Tok // sizeOf r ≤ sizeOf input})
  | [], iteratorsSpan => .err (Err.new iteratorsSpan msgUnterminated)
  | .punct '*' _ _ :: rest, _ => .ok ([], ⟨rest, sizeOf_tail_le _ _⟩)
  | .group d ts gsp :: rest, iteratorsSpan =>
    match parseGroup d ts gsp with
    | .ok g =>
      match parseSeparator rest iteratorsSpan with
      | .ok (out, ⟨r, h⟩) => .ok (g :: out, ⟨r, le_trans h (sizeOf_tail_le _ _)⟩)
      | .err e => .err e
      | .panicked m => .panicked m
    | .err e => .err e
    | .panicked m => .panicked m
  | .ident name sp :: rest, iteratorsSpan =>
    match parseSeparator rest iteratorsSpan with
    | .ok (out, ⟨r, h⟩) => .ok (parseIdent name sp :: out, ⟨r, le_trans h (sizeOf_tail_le _ _)⟩)
    | .err e => .err e
    | .panicked m => .panicked m
  | .lit raw sp :: rest, iteratorsSpan =>
    match parseLiteral raw sp with
    | .ok i =>
      match parseSeparator rest iteratorsSpan with
      | .ok (out, ⟨r, h⟩) => .ok (i :: out, ⟨r, le_trans h (sizeOf_tail_le _ _)⟩)
      | .err e => .err e
      | .panicked m => .panicked m
    | .err e => .err e
    | .panicked m => .panicked m
  | .punct '#' _ _ :: .ident name isp :: rest, iteratorsSpan =>
    match parseSeparator rest iteratorsSpan with
    | .ok (out, ⟨r, h⟩) =>
      .ok (interpolateToTokensIdent name isp :: out,
        ⟨r, le_trans (le_trans h (sizeOf_tail_le _ _)) (sizeOf_tail_le _ _)⟩)
    | .err e => .err e
    | .panicked m => .panicked m
  | .punct '#' _ _ :: .group .paren _ gsp :: rest, _ =>
    match parseSeparator rest gsp with
    | .ok (sep, _) => .err ((Err.new gsp msgNested).endSpan (lastSpan sep gsp))
    | .err e => .err e
    | .panicked m => .panicked m
  | .punct ch spc sp :: rest, iteratorsSpan =>
    match parseSeparator rest iteratorsSpan with
    | .ok (out, ⟨r, h⟩) => .ok (parsePunct ch spc sp :: out, ⟨r, le_trans h (sizeOf_tail_le _ _)⟩)
    | .err e => .err e
    | .panicked m => .panicked m
termination_by input _ => (sizeOf input, 0)

/-- Models `interpolate_iterator_group`: walks the sub-template in
restricted mode, fails when no scalar name was recorded, and otherwise
produces the generated loop, with the index-tracking variant exactly when
the separator emission is nonempty. -/
def interpolateIteratorGroup (ts : List Tok) (gspan : Nat) (sep : List Instr) : PRes Instr :=
  match parseTokenStreamInIteratorPattern ts [] with
  | .ok (output, iterIdents) =>
    match iterIdents with
    | [] => .err (Err.new gspan msgEmpty)
    | _ :: _ =>
      if sep.isEmpty then .ok (.forLoop iterIdents output)
      else .ok (.forLoopSep iterIdents sep output)
  | .err e => .err e
  | .panicked m => .panicked m
termination_by (sizeOf ts, 1)

end

/-- Projection of `parseSeparator` dropping the termination bound, used
in statements. -/
def parseSeparatorR (input : List Tok) (iteratorsSpan : Nat) : PRes (List Instr × List Tok) :=
  match parseSeparator input iteratorsSpan with
  | .ok (out, r) => .ok (out, r.val)
  | .err e => .err e
  | .panicked m => .panicked m

/-- Overall compilation result: a construction program wrapped by
`generate_quote_header`, a deferred diagnostic produced by `Error::raise`
(a `compile_error!` invocation carrying the message, anchored at the
start span, with the optional end span on the wrapping statement), or an
outward panic. -/
inductive CompileResult where
  | program (instrs : List Instr)
  | diagnostic (msg : String) (spanS : Nat) (spanE : Option Nat)
  | panicked (m : String)
deriving Repr

/-- Models the top-level `quote` entry point. -/
def quote (input : List Tok) : CompileResult :=
  match parseTokenStream input with
  | .ok out => .program out
  | .err e => .diagnostic e.msg e.spanS e.spanE
  | .panicked m => .panicked m

/-! Runtime semantics of the generated loop.  The generated code is
`for idents_in_tuple in n1.into_iter().zip(n2.into_iter())... { body }`,
optionally with `.enumerate()` and a leading `if __i > 0 { separator }`.
An environment assigns each bound name the sequence of values its
iterator yields (values are opaque, modelled as `Nat`). -/

/-- One `.zip` application on the already-zipped prefix: pairs are
flattened into lists of values, and the iteration truncates to the
shorter side exactly as `Iterator::zip` does. -/
def zipStep (acc : List (List Nat)) (next : List Nat) : List (List Nat) :=
  (acc.zip next).map (fun p => p.1 ++ [p.2])

/-- The tuple sequence over which the generated loop runs: the first
recorded name drives the iteration and each subsequent name is zipped on
in recorded order. -/
def loopTuples (names : List String) (env : String → List Nat) : List (List Nat) :=
  match names with
  | [] => []
  | n :: rest => (rest.map env).foldl zipStep ((env n).map (fun v => [v]))

/-- Per-iteration emissions of the enumerated loop variant: iteration `i`
emits the separator program first exactly when `__i > 0`, then the body. -/
def sepLoopEmissions (sep body : List Instr) (count : Nat) : List (List Instr) :=
  (List.range count).map (fun i => (if 0 < i then sep else []) ++ body)

/-- Instruction sequence the loop body emits on each iteration, in order:
for the plain loop the body alone once per tuple; for the enumerated loop
the separator program precedes the body on every iteration with
`__i > 0`. -/
def runLoopInstr : Instr → (String → List Nat) → Option (List (List Instr))
  | .forLoop names body, env =>
    some (List.replicate (loopTuples names env).length body)
  | .forLoopSep names sep body, env =>
    some (sepLoopEmissions sep body (loopTuples names env).length)
  | _, _ => Option.none

/-- Bound-name list of a generated loop instruction, for stating that the
separator stream never contributes bound names. -/
def loopBoundNames : PRes Instr → PRes (List String)
  | .ok (.forLoop names _) => .ok names
  | .ok (.forLoopSep names _ _) => .ok names
  | .ok _ => .ok []
  | .err e => .err e
  | .panicked m => .panicked m

/-! Specification-side descriptions used to state the claims about the
restricted walk, plus structural predicates on separator token runs. -/

/-- Specification-side description of the scalar placeholder names of a
sub-template, in walk order, descending into nested groups, duplicates
kept. -/
def scalarPlaceholderOccs : List Tok → List String
  | [] => []
  | .punct '#' _ _ :: .ident name _ :: rest => name :: scalarPlaceholderOccs rest
  | .group _ ts _ :: rest => scalarPlaceholderOccs ts ++ scalarPlaceholderOccs rest
  | _ :: rest => scalarPlaceholderOccs rest
termination_by input => sizeOf input

/-- Record a name unless already recorded, the push-if-absent step of
`iter_idents` maintenance. -/
def insName (acc : List String) (n : String) : List String :=
  if n ∈ acc then acc else acc ++ [n]

/-- First-occurrence deduplication, the order in which
`parse_token_stream_in_iterator_pattern` records names. -/
def firstOccs (l : List String) : List String :=
  l.foldl insName []

/-- A token is the reserved terminator punctuation `*`. -/
def isStarTok : Tok → Bool
  | .punct ch _ _ => ch = '*'
  | _ => false

/-- The token run contains a top-level `*` punctuation. -/
def hasTopLevelStar (input : List Tok) : Bool :=
  input.any isStarTok

/-- The token run contains, at top level and after scalar-placeholder
consumption, a `#` marker directly followed by a parenthesized group,
i.e. the start of a (rejected) nested repetition pattern. -/
def hasNestedCandidate : List Tok → Bool
  | .punct '#' _ _ :: .ident _ _ :: rest => hasNestedCandidate rest
  | .punct '#' _ _ :: .group .paren _ _ :: _ => true
  | _ :: rest => hasNestedCandidate rest
  | [] => false
termination_by input => sizeOf input

/-- The token run contains, after scalar-placeholder consumption and at
any group depth, a `#` marker directly followed by a parenthesized
group.  This is the region the restricted walk scans: it descends into
groups in restricted mode, so a deep candidate in a repetition
sub-template is reached by the walk. -/
def hasNestedCandidateDeep : List Tok → Bool
  | .punct '#' _ _ :: .ident _ _ :: rest => hasNestedCandidateDeep rest
  | .punct '#' _ _ :: .group .paren _ _ :: _ => true
  | .group _ ts _ :: rest => hasNestedCandidateDeep ts || hasNestedCandidateDeep rest
  | _ :: rest => hasNestedCandidateDeep rest
  | [] => false
termination_by input => sizeOf input

/-! Claim theorems. -/

/-- C1: the claim states that `quote` never fails outwardly and on any
internal error returns a deferred-diagnostic construction program.  The
code contradicts this (and its own comment that the panic branch should
never show up): on the valid hexadecimal literal `0x1F`, which matches no
suffix in the pass-through list and is rejected by all four numeric
parses, the literal classifier panics, so `quote` panics instead of
producing a construction program. -/
theorem c1_quote_panics_on_hex_literal :
    quote [.lit "0x1F" 0] = .panicked msgUnparsableLiteral := by
  have h : parseLiteral "0x1F" 0 = .panicked msgUnparsableLiteral := rfl
  simp [quote, parseTokenStream.eq_def, h]

/-- C2: for a literal without a recognized textual suffix, classification
tries signed 32-bit, signed 64-bit, then unsigned 64-bit decimal parses
in that order, first success winning, and falls back to an unsuffixed
double only when all three fail; with the four concrete examples of the
claim. -/
theorem c2_literal_classification_order :
    (∀ raw sp i, endsWithSuffix raw = false → rustParseI32 raw.data = some i →
      parseLiteral raw sp = .ok (.appendLitI32 i sp)) ∧
    (∀ raw sp i, endsWithSuffix raw = false → rustParseI32 raw.data = Option.none →
      rustParseI64 raw.data = some i →
      parseLiteral raw sp = .ok (.appendLitI64 i sp)) ∧
    (∀ raw sp u, endsWithSuffix raw = false → rustParseI32 raw.data = Option.none →
      rustParseI64 raw.data = Option.none → rustParseU64 raw.data = some u →
      parseLiteral raw sp = .ok (.appendLitU64 u sp)) ∧
    (∀ raw sp, endsWithSuffix raw = false → rustParseI32 raw.data = Option.none →
      rustParseI64 raw.data = Option.none → rustParseU64 raw.data = Option.none →
      rustParseF64Accepts raw.data = true →
      parseLiteral raw sp = .ok (.appendLitF64 raw sp)) ∧
    parseLiteral "5" 0 = .ok (.appendLitI32 5 0) ∧
    parseLiteral "9999999999" 0 = .ok (.appendLitI64 9999999999 0) ∧
    parseLiteral "18446744073709551615" 0 = .ok (.appendLitU64 18446744073709551615 0) ∧
    parseLiteral "3.14" 0 = .ok (.appendLitF64 "3.14" 0) := by
  refine ⟨?_, ?_, ?_, ?_, rfl, rfl, rfl, rfl⟩
  · intro raw sp i h0 h32
    simp [parseLiteral, h0, h32]
  · intro raw sp i h0 h32 h64
    simp [parseLiteral, h0, h32, h64]
  · intro raw sp u h0 h32 h64 hu
    simp [parseLiteral, h0, h32, h64, hu]
  · intro raw sp h0 h32 h64 hu hf
    simp [parseLiteral, h0, h32, h64, hu, hf]

/-- C2 witness: the first branch of the classification order applied at a
concrete unsuffixed literal. -/
theorem c2_literal_classification_order_witness :
    parseLiteral "7" 3 = .ok (.appendLitI32 7 3) :=
  c2_literal_classification_order.1 "7" 3 7 rfl rfl

/-- C3: classification is pass-through, re-emitting the literal text
verbatim through the generic append-to-tokens call, exactly when the raw
text ends with one of the fixed suffix strings or bare quote or hash
characters; the test is the textual ends-with check `endsWithSuffix`. -/
theorem c3_passthrough_iff_textual_suffix :
    ∀ raw sp, parseLiteral raw sp = .ok (.appendToTokensLit raw sp) ↔
      endsWithSuffix raw = true := by
  intro raw sp
  unfold parseLiteral
  by_cases h : endsWithSuffix raw = true
  · simp [h]
  · simp only [Bool.not_eq_true] at h
    simp only [h, Bool.false_eq_true, if_false]
    constructor
    · intro hcontra
      exfalso
      cases h32 : rustParseI32 raw.data with
      | some i => simp [h32] at hcontra
      | none =>
        cases h64 : rustParseI64 raw.data with
        | some i => simp [h32, h64] at hcontra
        | none =>
          cases hu : rustParseU64 raw.data with
          | some u => simp [h32, h64, hu] at hcontra
          | none =>
            by_cases hf : rustParseF64Accepts raw.data = true
            · simp [h32, h64, hu, hf] at hcontra
            · simp only [Bool.not_eq_true] at hf
              simp [h32, h64, hu, hf] at hcontra
    · intro hcontra
      exact hcontra.elim

/-- C3 witness: a suffixed literal is re-emitted verbatim. -/
theorem c3_passthrough_iff_textual_suffix_witness :
    parseLiteral "18u8" 4 = .ok (.appendToTokensLit "18u8" 4) :=
  (c3_passthrough_iff_textual_suffix "18u8" 4).mpr rfl

/-- C7: when the restricted walk of a repetition sub-template records no
scalar names, the expander fails with the empty-repetition error anchored
at the span of the parenthesized sub-template, instead of building a
loop. -/
theorem c7_empty_repetition_error :
    ∀ ts gspan sep out, parseTokenStreamInIteratorPattern ts [] = .ok (out, []) →
      interpolateIteratorGroup ts gspan sep = .err (Err.new gspan msgEmpty) := by
  intro ts gspan sep out h
  rw [interpolateIteratorGroup.eq_def, h]

/-- C7 witness: the sub-template with a single plain identifier binds no
names, so the expander rejects as an empty repetition. -/
theorem c7_empty_repetition_error_witness :
    interpolateIteratorGroup [.ident "abc" 1] 2 [] = .err (Err.new 2 msgEmpty) :=
  c7_empty_repetition_error [.ident "abc" 1] 2 [] [parseIdent "abc" 1]
    (by simp [parseTokenStreamInIteratorPattern.eq_def])

/-- C9 counterexample: the walker emits the append-identifier call with
`Span::call_site()` as the span argument of the appended identifier; the
original template span is attached to the emitted tokens instead, so the
claim that the original span is the span argument is false. -/
theorem c9_span_argument_counterexample :
    parseTokenStream [.ident "foo" 5] = .ok [.appendIdent "foo" RtSpan.callSite 5] ∧
    Instr.appendIdent "foo" RtSpan.callSite 5 ≠
      Instr.appendIdent "foo" (RtSpan.fromTemplate 5) 5 := by
  constructor
  · simp [parseTokenStream.eq_def, parseIdent]
  · simp

/-- C9 amended: for an identifier child the walker emits an
append-identifier instruction whose text is the identifier text verbatim
and whose emitted tokens carry the identifier original span, while the
span argument passed to the appended identifier is the call-site span. -/
theorem c9_ident_emission_amended :
    ∀ name sp rest out, parseTokenStream rest = .ok out →
      parseTokenStream (.ident name sp :: rest) =
        .ok (.appendIdent name RtSpan.callSite sp :: out) := by
  intro name sp rest out h
  rw [parseTokenStream.eq_def]
  simp [h, parseIdent]

/-- C9 witness: the amended emission at a concrete identifier. -/
theorem c9_ident_emission_amended_witness :
    parseTokenStream [.ident "bar" 7] = .ok [.appendIdent "bar" RtSpan.callSite 7] :=
  c9_ident_emission_amended "bar" 7 [] [] (by simp [parseTokenStream.eq_def])

/-- C5: with an empty parsed separator the expander generates the plain
loop whose body is exactly the sub-template program, each iteration
emitting that body alone; with a nonempty separator it generates the
enumerated loop, which emits nothing before the body on iteration zero
and emits the separator program before the body on every later
iteration. -/
theorem c5_separator_emission :
    ∀ ts gspan sep out name names,
      parseTokenStreamInIteratorPattern ts [] = .ok (out, name :: names) →
      (sep = [] →
        interpolateIteratorGroup ts gspan sep = .ok (.forLoop (name :: names) out) ∧
        ∀ env, runLoopInstr (.forLoop (name :: names) out) env =
          some (List.replicate (loopTuples (name :: names) env).length out)) ∧
      (sep ≠ [] →
        interpolateIteratorGroup ts gspan sep = .ok (.forLoopSep (name :: names) sep out) ∧
        ∀ env, runLoopInstr (.forLoopSep (name :: names) sep out) env =
          some (sepLoopEmissions sep out (loopTuples (name :: names) env).length)) ∧
      (∀ count, (sepLoopEmissions sep out count)[0]? =
        if count = 0 then Option.none else some out) ∧
      (∀ count i, 0 < i → i < count →
        (sepLoopEmissions sep out count)[i]? = some (sep ++ out)) := by
  intro ts gspan sep out name names h
  refine ⟨?_, ?_, ?_, ?_⟩
  · intro hsep
    subst hsep
    constructor
    · rw [interpolateIteratorGroup.eq_def, h]
      simp
    · intro env
      rfl
  · intro hsep
    constructor
    · rw [interpolateIteratorGroup.eq_def, h]
      have : sep.isEmpty = false := by
        cases sep with
        | nil => exact absurd rfl hsep
        | cons a l => rfl
      simp [this]
    · intro env
      rfl
  · intro count
    cases count with
    | zero => rfl
    | succ n =>
      simp [sepLoopEmissions, List.getElem?_map]
  · intro count i hi hic
    simp [sepLoopEmissions, List.getElem?_map, List.getElem?_range, hic, hi]

/-- C5 witness: a two-token sub-template binding `x`, once with the empty
separator and once with a one-instruction separator, at a concrete
environment of length 2. -/
theorem c5_separator_emission_witness :
    (interpolateIteratorGroup [.punct '#' .alone 1, .ident "x" 2] 3 [] =
      .ok (.forLoop ["x"] [.appendToTokensIdent "x" 2]) ∧
     ∀ env, runLoopInstr (.forLoop ["x"] [.appendToTokensIdent "x" 2]) env =
      some (List.replicate (loopTuples ["x"] env).length [.appendToTokensIdent "x" 2])) ∧
    (interpolateIteratorGroup [.punct '#' .alone 1, .ident "x" 2] 3 [.appendPunct ',' .alone 4] =
      .ok (.forLoopSep ["x"] [.appendPunct ',' .alone 4] [.appendToTokensIdent "x" 2]) ∧
     (sepLoopEmissions [.appendPunct ',' .alone 4] [.appendToTokensIdent "x" 2] 2)[0]? =
      some [.appendToTokensIdent "x" 2] ∧
     (sepLoopEmissions [.appendPunct ',' .alone 4] [.appendToTokensIdent "x" 2] 2)[1]? =
      some [.appendPunct ',' .alone 4, .appendToTokensIdent "x" 2]) := by
  have hp : parseTokenStreamInIteratorPattern [.punct '#' .alone 1, .ident "x" 2] [] =
      .ok ([.appendToTokensIdent "x" 2], ["x"]) := by
    simp [parseTokenStreamInIteratorPattern.eq_def, interpolateToTokensIdent]
  have h1 := (c5_separator_emission _ 3 [] _ "x" [] hp).1 rfl
  have h2 := (c5_separator_emission _ 3 [.appendPunct ',' .alone 4] _ "x" [] hp).2.1
    (by simp)
  have h3 := ((c5_separator_emission _ 3 [.appendPunct ',' .alone 4] _ "x" [] hp).2.2.1) 2
  have h4 := ((c5_separator_emission _ 3 [.appendPunct ',' .alone 4] _ "x" [] hp).2.2.2) 2 1
    (by decide) (by decide)
  exact ⟨⟨h1.1, h1.2⟩, ⟨h2.1, by simpa using h3, by simpa using h4⟩⟩

/-- C6 counterexample: on the doubly nested repetition template the
diagnostic carries the inner parenthesized group span (6) as both start
and end span, not the inner marker span (4) through the terminator span
(7) as the claim states. -/
theorem c6_nested_repetition_span_counterexample :
    quote [.punct '#' .alone 1,
           .group .paren [.punct '#' .alone 4,
                          .group .paren [.punct '#' .alone 8, .ident "x" 9] 6,
                          .punct '*' .alone 7] 2,
           .punct '*' .alone 3] =
      .diagnostic msgNested 6 (some 6) ∧
    CompileResult.diagnostic msgNested 6 (some 6) ≠
      CompileResult.diagnostic msgNested 4 (some 7) := by
  constructor
  · simp [quote, parseTokenStream.eq_def, parseSeparator.eq_def,
      interpolateIteratorGroup.eq_def, parseTokenStreamInIteratorPattern.eq_def,
      lastSpan, Err.new, Err.endSpan]
  · simp

/-- C10: a scalar placeholder inside the separator token run is compiled
to an append-to-tokens interpolation instruction, but the bound-name list
of the generated loop is computed from the sub-template alone, so the
separator never contributes a driving or zipped name; in particular a
repetition whose sub-template binds nothing still fails as an empty
repetition even when its separator contains a scalar placeholder. -/
theorem c10_separator_scalar_not_bound :
    (∀ (spc : Spacing) (hsp : Nat) (name : String) (isp : Nat) (rest : List Tok) (ospan : Nat),
      parseSeparatorR (.punct '#' spc hsp :: .ident name isp :: rest) ospan =
        match parseSeparatorR rest ospan with
        | .ok (out, r) => .ok (.appendToTokensIdent name isp :: out, r)
        | .err e => .err e
        | .panicked m => .panicked m) ∧
    (∀ ts gspan s1 s2, loopBoundNames (interpolateIteratorGroup ts gspan s1) =
        loopBoundNames (interpolateIteratorGroup ts gspan s2)) ∧
    quote [.punct '#' .alone 1, .group .paren [.ident "abc" 2] 3, .punct '#' .alone 4,
      .ident "x" 5, .punct '*' .alone 6] = .diagnostic msgEmpty 3 Option.none := by
  refine ⟨?_, ?_, ?_⟩
  · intro spc hsp name isp rest ospan
    simp only [parseSeparatorR]
    rw [parseSeparator.eq_def]
    cases hr : parseSeparator rest ospan with
    | ok p =>
      obtain ⟨o, r⟩ := p
      simp [hr, interpolateToTokensIdent]
    | err e => simp [hr]
    | panicked m => simp [hr]
  · intro ts gspan s1 s2
    rw [interpolateIteratorGroup.eq_def, interpolateIteratorGroup.eq_def]
    cases h : parseTokenStreamInIteratorPattern ts [] with
    | ok p =>
      obtain ⟨out, names⟩ := p
      cases names with
      | nil => rfl
      | cons n ns =>
        cases hs1 : s1.isEmpty <;> cases hs2 : s2.isEmpty <;>
          simp [loopBoundNames]
    | err e => rfl
    | panicked m => rfl
  · simp [quote, parseTokenStream.eq_def, parseSeparator.eq_def,
      interpolateIteratorGroup.eq_def, parseTokenStreamInIteratorPattern.eq_def,
      interpolateToTokensIdent, parseIdent, Err.new]

/-! Unfolding lemmas for `parseSeparatorR`, one per consumption shape of
`parse_separator`. -/

/-- Exhausted cursor: the unterminated-repetition error. -/
theorem psrNil (ospan : Nat) :
    parseSeparatorR [] ospan = .err (Err.new ospan msgUnterminated) := by
  simp [parseSeparatorR, parseSeparator.eq_def]

/-- The reserved terminator ends the separator run. -/
theorem psrStar (spc : Spacing) (sp : Nat) (rest : List Tok) (ospan : Nat) :
    parseSeparatorR (.punct '*' spc sp :: rest) ospan = .ok ([], rest) := by
  simp [parseSeparatorR, parseSeparator.eq_def]

/-- A group token inside the separator is walked by `parse_group`. -/
theorem psrGroup (d : Delim) (ts : List Tok) (gsp : Nat) (rest : List Tok) (ospan : Nat) :
    parseSeparatorR (.group d ts gsp :: rest) ospan =
      (match parseGroup d ts gsp with
       | .ok g =>
         match parseSeparatorR rest ospan with
         | .ok (o, r) => .ok (g :: o, r)
         | .err e => .err e
         | .panicked m => .panicked m
       | .err e => .err e
       | .panicked m => .panicked m) := by
  simp only [parseSeparatorR]
  rw [parseSeparator.eq_def]
  cases hg : parseGroup d ts gsp with
  | ok g =>
    cases hr : parseSeparator rest ospan with
    | ok p =>
      obtain ⟨o, r⟩ := p
      simp [hg, hr]
    | err e => simp [hg, hr]
    | panicked m => simp [hg, hr]
  | err e => simp [hg]
  | panicked m => simp [hg]

/-- An identifier token inside the separator. -/
theorem psrIdent (nm : String) (sp : Nat) (rest : List Tok) (ospan : Nat) :
    parseSeparatorR (.ident nm sp :: rest) ospan =
      (match parseSeparatorR rest ospan with
       | .ok (o, r) => .ok (parseIdent nm sp :: o, r)
       | .err e => .err e
       | .panicked m => .panicked m) := by
  simp only [parseSeparatorR]
  rw [parseSeparator.eq_def]
  cases hr : parseSeparator rest ospan with
  | ok p =>
    obtain ⟨o, r⟩ := p
    simp [hr]
  | err e => simp [hr]
  | panicked m => simp [hr]

/-- A literal token inside the separator. -/
theorem psrLit (raw : String) (sp : Nat) (rest : List Tok) (ospan : Nat) :
    parseSeparatorR (.lit raw sp :: rest) ospan =
      (match parseLiteral raw sp with
       | .ok i =>
         match parseSeparatorR rest ospan with
         | .ok (o, r) => .ok (i :: o, r)
         | .err e => .err e
         | .panicked m => .panicked m
       | .err e => .err e
       | .panicked m => .panicked m) := by
  simp only [parseSeparatorR]
  rw [parseSeparator.eq_def]
  cases hl : parseLiteral raw sp with
  | ok i =>
    cases hr : parseSeparator rest ospan with
    | ok p =>
      obtain ⟨o, r⟩ := p
      simp [hl, hr]
    | err e => simp [hl, hr]
    | panicked m => simp [hl, hr]
  | err e => simp [hl]
  | panicked m => simp [hl]

/-- A scalar placeholder inside the separator: both tokens are consumed
and an append-to-tokens interpolation is emitted. -/
theorem psrHashIdent (spc : Spacing) (hsp : Nat) (nm : String) (isp : Nat)
    (rest : List Tok) (ospan : Nat) :
    parseSeparatorR (.punct '#' spc hsp :: .ident nm isp :: rest) ospan =
      (match parseSeparatorR rest ospan with
       | .ok (o, r) => .ok (interpolateToTokensIdent nm isp :: o, r)
       | .err e => .err e
       | .panicked m => .panicked m) := by
  simp only [parseSeparatorR]
  rw [parseSeparator.eq_def]
  cases hr : parseSeparator rest ospan with
  | ok p =>
    obtain ⟨o, r⟩ := p
    simp [hr]
  | err e => simp [hr]
  | panicked m => simp [hr]

/-- A marker character not followed by an identifier or parenthesized
group is emitted as ordinary punctuation; the walk continues at the next
token. -/
theorem psrHashOther (spc : Spacing) (hsp : Nat) (tok2 : Tok) (rest : List Tok) (ospan : Nat)
    (hshape : match tok2 with
      | .ident _ _ => False
      | .group .paren _ _ => False
      | _ => True) :
    parseSeparatorR (.punct '#' spc hsp :: tok2 :: rest) ospan =
      (match parseSeparatorR (tok2 :: rest) ospan with
       | .ok (o, r) => .ok (parsePunct '#' spc hsp :: o, r)
       | .err e => .err e
       | .panicked m => .panicked m) := by
  simp only [parseSeparatorR]
  rw [parseSeparator.eq_def]
  cases hr : parseSeparator (tok2 :: rest) ospan with
  | ok p =>
    obtain ⟨o, r⟩ := p
    cases tok2 with
    | ident nm isp => exact hshape.elim
    | punct c2 s2 p2 => simp [hr]
    | lit r2 p2 => simp [hr]
    | group d2 ts2 g2 =>
      cases d2 with
      | paren => exact hshape.elim
      | brace => simp [hr]
      | bracket => simp [hr]
      | none => simp [hr]
  | err e =>
    cases tok2 with
    | ident nm isp => exact hshape.elim
    | punct c2 s2 p2 => simp [hr]
    | lit r2 p2 => simp [hr]
    | group d2 ts2 g2 =>
      cases d2 with
      | paren => exact hshape.elim
      | brace => simp [hr]
      | bracket => simp [hr]
      | none => simp [hr]
  | panicked m =>
    cases tok2 with
    | ident nm isp => exact hshape.elim
    | punct c2 s2 p2 => simp [hr]
    | lit r2 p2 => simp [hr]
    | group d2 ts2 g2 =>
      cases d2 with
      | paren => exact hshape.elim
      | brace => simp [hr]
      | bracket => simp [hr]
      | none => simp [hr]

/-- Ordinary punctuation inside the separator. -/
theorem psrPunctOther (ch : Char) (spc : Spacing) (sp : Nat) (rest : List Tok) (ospan : Nat)
    (h1 : ch ≠ '#') (h2 : ch ≠ '*') :
    parseSeparatorR (.punct ch spc sp :: rest) ospan =
      (match parseSeparatorR rest ospan with
       | .ok (o, r) => .ok (parsePunct ch spc sp :: o, r)
       | .err e => .err e
       | .panicked m => .panicked m) := by
  simp only [parseSeparatorR]
  rw [parseSeparator.eq_def]
  cases hr : parseSeparator rest ospan with
  | ok p =>
    obtain ⟨o, r⟩ := p
    simp [hr, h1, h2]
  | err e => simp [hr, h1, h2]
  | panicked m => simp [hr, h1, h2]

/-- A lone marker character at the end of the input: emitted as
punctuation, then the cursor is exhausted. -/
theorem psrHashEnd (spc : Spacing) (hsp : Nat) (ospan : Nat) :
    parseSeparatorR [.punct '#' spc hsp] ospan = .err (Err.new ospan msgUnterminated) := by
  simp [parseSeparatorR, parseSeparator.eq_def]

/-- Dropping the head token preserves star-freedom. -/
theorem starTail (tok : Tok) (l : List Tok) (h : hasTopLevelStar (tok :: l) = false) :
    hasTopLevelStar l = false := by
  have h2 : (isStarTok tok || hasTopLevelStar l) = false := h
  exact (Bool.or_eq_false_iff.mp h2).2

/-- The head punctuation of a star-free run is not the terminator. -/
theorem starHeadPunct (ch : Char) (spc : Spacing) (sp : Nat) (l : List Tok)
    (h : hasTopLevelStar (.punct ch spc sp :: l) = false) : ch ≠ '*' := by
  have h2 : (isStarTok (.punct ch spc sp) || hasTopLevelStar l) = false := h
  have h3 := (Bool.or_eq_false_iff.mp h2).1
  simpa [isStarTok] using h3

/-- Separator-run shift: walking a star-free, nested-pattern-free prefix
inside `parse_separator` emits exactly the construction program that
`parse_token_stream` emits for the same tokens, and continues in the
suffix; the suffix must not start with a token that the marker lookahead
could capture across the boundary. -/
theorem sep_shift_aux :
    ∀ (n : Nat) (pre suf : List Tok) (ospan : Nat) (out : List Instr),
      sizeOf pre ≤ n →
      hasTopLevelStar pre = false →
      hasNestedCandidate pre = false →
      (match suf with
        | .ident _ _ :: _ => False
        | .group .paren _ _ :: _ => False
        | _ => True) →
      parseTokenStream pre = .ok out →
      parseSeparatorR (pre ++ suf) ospan =
        (match parseSeparatorR suf ospan with
         | .ok (o, r) => .ok (out ++ o, r)
         | .err e => .err e
         | .panicked m => .panicked m) := by
  intro n
  induction n with
  | zero =>
    intro pre suf ospan out hsz _ _ _ _
    cases pre with
    | nil => simp_arith at hsz
    | cons t r => simp_arith at hsz
  | succ n IH =>
    intro pre suf ospan out hsz hstar hnc hshape hpt
    cases pre with
    | nil =>
      simp [parseTokenStream.eq_def] at hpt
      subst hpt
      cases hsuf : parseSeparatorR suf ospan with
      | ok p =>
        obtain ⟨o, r⟩ := p
        simp [hsuf]
      | err e => simp [hsuf]
      | panicked m => simp [hsuf]
    | cons tok pre2 =>
      have hszr : sizeOf pre2 ≤ n := by simp_arith at hsz; omega
      cases tok with
      | group d ts2 gsp =>
        rw [parseTokenStream.eq_def] at hpt
        cases hg : parseGroup d ts2 gsp with
        | ok g =>
          cases hq : parseTokenStream pre2 with
          | ok out2 =>
            simp [hg, hq] at hpt
            subst hpt
            have hstar2 := starTail _ _ hstar
            have hnc2 : hasNestedCandidate pre2 = false := by
              rw [hasNestedCandidate.eq_def] at hnc
              simpa using hnc
            have ihr := IH pre2 suf ospan out2 hszr hstar2 hnc2 hshape hq
            rw [List.cons_append, psrGroup, hg, ihr]
            cases hsuf : parseSeparatorR suf ospan with
            | ok p =>
              obtain ⟨o, r⟩ := p
              simp [hsuf]
            | err e => simp [hsuf]
            | panicked m => simp [hsuf]
          | err e => simp [hg, hq] at hpt
          | panicked m => simp [hg, hq] at hpt
        | err e => simp [hg] at hpt
        | panicked m => simp [hg] at hpt
      | ident nm sp =>
        rw [parseTokenStream.eq_def] at hpt
        cases hq : parseTokenStream pre2 with
        | ok out2 =>
          simp [hq] at hpt
          subst hpt
          have hstar2 := starTail _ _ hstar
          have hnc2 : hasNestedCandidate pre2 = false := by
            rw [hasNestedCandidate.eq_def] at hnc
            simpa using hnc
          have ihr := IH pre2 suf ospan out2 hszr hstar2 hnc2 hshape hq
          rw [List.cons_append, psrIdent, ihr]
          cases hsuf : parseSeparatorR suf ospan with
          | ok p =>
            obtain ⟨o, r⟩ := p
            simp [hsuf]
          | err e => simp [hsuf]
          | panicked m => simp [hsuf]
        | err e => simp [hq] at hpt
        | panicked m => simp [hq] at hpt
      | lit raw sp =>
        rw [parseTokenStream.eq_def] at hpt
        cases hl : parseLiteral raw sp with
        | ok i =>
          cases hq : parseTokenStream pre2 with
          | ok out2 =>
            simp [hl, hq] at hpt
            subst hpt
            have hstar2 := starTail _ _ hstar
            have hnc2 : hasNestedCandidate pre2 = false := by
              rw [hasNestedCandidate.eq_def] at hnc
              simpa using hnc
            have ihr := IH pre2 suf ospan out2 hszr hstar2 hnc2 hshape hq
            rw [List.cons_append, psrLit, hl, ihr]
            cases hsuf : parseSeparatorR suf ospan with
            | ok p =>
              obtain ⟨o, r⟩ := p
              simp [hsuf]
            | err e => simp [hsuf]
            | panicked m => simp [hsuf]
          | err e => simp [hl, hq] at hpt
          | panicked m => simp [hl, hq] at hpt
        | err e => simp [hl] at hpt
        | panicked m => simp [hl] at hpt
      | punct ch spc sp =>
        by_cases hch : ch = '#'
        · subst hch
          cases pre2 with
          | nil =>
            simp [parseTokenStream.eq_def] at hpt
            subst hpt
            cases suf with
            | nil => simp [psrHashEnd, psrNil]
            | cons tok2 suf2 =>
              show parseSeparatorR (.punct '#' spc sp :: tok2 :: suf2) ospan = _
              rw [psrHashOther spc sp tok2 suf2 ospan (by
                cases tok2 with
                | ident a b => exact hshape
                | group d2 a b =>
                  cases d2 with
                  | paren => exact hshape
                  | brace => exact True.intro
                  | bracket => exact True.intro
                  | none => exact True.intro
                | punct a b c => exact True.intro
                | lit a b => exact True.intro)]
              cases hsuf : parseSeparatorR (tok2 :: suf2) ospan with
              | ok p =>
                obtain ⟨o, r⟩ := p
                simp [hsuf]
              | err e => simp [hsuf]
              | panicked m => simp [hsuf]
          | cons tok2 pre3 =>
            have hszr2 : sizeOf pre3 ≤ n := by simp_arith at hsz; omega
            cases tok2 with
            | ident nm isp =>
              rw [parseTokenStream.eq_def] at hpt
              cases hq : parseTokenStream pre3 with
              | ok out2 =>
                simp [hq] at hpt
                subst hpt
                have hstar2 := starTail _ _ (starTail _ _ hstar)
                have hnc2 : hasNestedCandidate pre3 = false := by
                  rw [hasNestedCandidate.eq_def] at hnc
                  simpa using hnc
                have ihr := IH pre3 suf ospan out2 hszr2 hstar2 hnc2 hshape hq
                rw [List.cons_append, List.cons_append, psrHashIdent, ihr]
                cases hsuf : parseSeparatorR suf ospan with
                | ok p =>
                  obtain ⟨o, r⟩ := p
                  simp [hsuf]
                | err e => simp [hsuf]
                | panicked m => simp [hsuf]
              | err e => simp [hq] at hpt
              | panicked m => simp [hq] at hpt
            | group d2 ts2 gsp2 =>
              cases d2 with
              | paren =>
                rw [hasNestedCandidate.eq_def] at hnc
                simp at hnc
              | brace =>
                rw [parseTokenStream.eq_def] at hpt
                cases hq : parseTokenStream (.group .brace ts2 gsp2 :: pre3) with
                | ok out2 =>
                  simp [hq] at hpt
                  subst hpt
                  have hstar2 := starTail _ _ hstar
                  have hnc2 : hasNestedCandidate (Tok.group Delim.brace ts2 gsp2 :: pre3) =
                      false := by
                    rw [hasNestedCandidate.eq_def] at hnc
                    simpa using hnc
                  have hsz2 : sizeOf (Tok.group Delim.brace ts2 gsp2 :: pre3) ≤ n := by
                    simp_arith at hsz ⊢; omega
                  have ihr := IH _ suf ospan out2 hsz2 hstar2 hnc2 hshape hq
                  simp only [List.cons_append]
                  simp only [List.cons_append] at ihr
                  rw [psrHashOther spc sp (.group .brace ts2 gsp2) (pre3 ++ suf) ospan True.intro]
                  rw [ihr]
                  cases hsuf : parseSeparatorR suf ospan with
                  | ok p =>
                    obtain ⟨o, r⟩ := p
                    simp [hsuf]
                  | err e => simp [hsuf]
                  | panicked m => simp [hsuf]
                | err e => simp [hq] at hpt
                | panicked m => simp [hq] at hpt
              | bracket =>
                rw [parseTokenStream.eq_def] at hpt
                cases hq : parseTokenStream (.group .bracket ts2 gsp2 :: pre3) with
                | ok out2 =>
                  simp [hq] at hpt
                  subst hpt
                  have hstar2 := starTail _ _ hstar
                  have hnc2 : hasNestedCandidate (Tok.group Delim.bracket ts2 gsp2 :: pre3) =
                      false := by
                    rw [hasNestedCandidate.eq_def] at hnc
                    simpa using hnc
                  have hsz2 : sizeOf (Tok.group Delim.bracket ts2 gsp2 :: pre3) ≤ n := by
                    simp_arith at hsz ⊢; omega
                  have ihr := IH _ suf ospan out2 hsz2 hstar2 hnc2 hshape hq
                  simp only [List.cons_append]
                  simp only [List.cons_append] at ihr
                  rw [psrHashOther spc sp (.group .bracket ts2 gsp2) (pre3 ++ suf) ospan True.intro]
                  rw [ihr]
                  cases hsuf : parseSeparatorR suf ospan with
                  | ok p =>
                    obtain ⟨o, r⟩ := p
                    simp [hsuf]
                  | err e => simp [hsuf]
                  | panicked m => simp [hsuf]
                | err e => simp [hq] at hpt
                | panicked m => simp [hq] at hpt
              | none =>
                rw [parseTokenStream.eq_def] at hpt
                cases hq : parseTokenStream (.group .none ts2 gsp2 :: pre3) with
                | ok out2 =>
                  simp [hq] at hpt
                  subst hpt
                  have hstar2 := starTail _ _ hstar
                  have hnc2 : hasNestedCandidate (Tok.group Delim.none ts2 gsp2 :: pre3) =
                      false := by
                    rw [hasNestedCandidate.eq_def] at hnc
                    simpa using hnc
                  have hsz2 : sizeOf (Tok.group Delim.none ts2 gsp2 :: pre3) ≤ n := by
                    simp_arith at hsz ⊢; omega
                  have ihr := IH _ suf ospan out2 hsz2 hstar2 hnc2 hshape hq
                  simp only [List.cons_append]
                  simp only [List.cons_append] at ihr
                  rw [psrHashOther spc sp (.group .none ts2 gsp2) (pre3 ++ suf) ospan True.intro]
                  rw [ihr]
                  cases hsuf : parseSeparatorR suf ospan with
                  | ok p =>
                    obtain ⟨o, r⟩ := p
                    simp [hsuf]
                  | err e => simp [hsuf]
                  | panicked m => simp [hsuf]
                | err e => simp [hq] at hpt
                | panicked m => simp [hq] at hpt
            | punct c2 s2 p2 =>
              rw [parseTokenStream.eq_def] at hpt
              cases hq : parseTokenStream (.punct c2 s2 p2 :: pre3) with
              | ok out2 =>
                simp [hq] at hpt
                subst hpt
                have hstar2 := starTail _ _ hstar
                have hnc2 : hasNestedCandidate (Tok.punct c2 s2 p2 :: pre3) = false := by
                  rw [hasNestedCandidate.eq_def] at hnc
                  simpa using hnc
                have hsz2 : sizeOf (Tok.punct c2 s2 p2 :: pre3) ≤ n := by
                  simp_arith at hsz ⊢; omega
                have ihr := IH _ suf ospan out2 hsz2 hstar2 hnc2 hshape hq
                simp only [List.cons_append]
                simp only [List.cons_append] at ihr
                rw [psrHashOther spc sp (.punct c2 s2 p2) (pre3 ++ suf) ospan True.intro]
                rw [ihr]
                cases hsuf : parseSeparatorR suf ospan with
                | ok p =>
                  obtain ⟨o, r⟩ := p
                  simp [hsuf]
                | err e => simp [hsuf]
                | panicked m => simp [hsuf]
              | err e => simp [hq] at hpt
              | panicked m => simp [hq] at hpt
            | lit r2 p2 =>
              rw [parseTokenStream.eq_def] at hpt
              cases hq : parseTokenStream (.lit r2 p2 :: pre3) with
              | ok out2 =>
                simp [hq] at hpt
                subst hpt
                have hstar2 := starTail _ _ hstar
                have hnc2 : hasNestedCandidate (Tok.lit r2 p2 :: pre3) = false := by
                  rw [hasNestedCandidate.eq_def] at hnc
                  simpa using hnc
                have hsz2 : sizeOf (Tok.lit r2 p2 :: pre3) ≤ n := by
                  simp_arith at hsz ⊢; omega
                have ihr := IH _ suf ospan out2 hsz2 hstar2 hnc2 hshape hq
                simp only [List.cons_append]
                simp only [List.cons_append] at ihr
                rw [psrHashOther spc sp (.lit r2 p2) (pre3 ++ suf) ospan True.intro]
                rw [ihr]
                cases hsuf : parseSeparatorR suf ospan with
                | ok p =>
                  obtain ⟨o, r⟩ := p
                  simp [hsuf]
                | err e => simp [hsuf]
                | panicked m => simp [hsuf]
              | err e => simp [hq] at hpt
              | panicked m => simp [hq] at hpt
        · have hchs : ch ≠ '*' := starHeadPunct _ _ _ _ hstar
          rw [parseTokenStream.eq_def] at hpt
          cases hq : parseTokenStream pre2 with
          | ok out2 =>
            simp [hch, hq] at hpt
            subst hpt
            have hstar2 := starTail _ _ hstar
            have hnc2 : hasNestedCandidate pre2 = false := by
              rw [hasNestedCandidate.eq_def] at hnc
              simpa [hch] using hnc
            have ihr := IH pre2 suf ospan out2 hszr hstar2 hnc2 hshape hq
            rw [List.cons_append, psrPunctOther _ _ _ _ _ hch hchs, ihr]
            cases hsuf : parseSeparatorR suf ospan with
            | ok p =>
              obtain ⟨o, r⟩ := p
              simp [hsuf]
            | err e => simp [hsuf]
            | panicked m => simp [hsuf]
          | err e => simp [hch, hq] at hpt
          | panicked m => simp [hch, hq] at hpt

/-! Auxiliary lemmas about the restricted walk and the generated zip. -/

/-- The restricted walk records exactly the scalar placeholder
occurrences, folded through push-if-absent, starting from the incoming
accumulator; strong induction on the size of the input. -/
theorem pii_records_aux :
    ∀ (n : Nat) (ts : List Tok) (acc : List String) (out : List Instr) (names : List String),
      sizeOf ts ≤ n →
      parseTokenStreamInIteratorPattern ts acc = .ok (out, names) →
      names = (scalarPlaceholderOccs ts).foldl insName acc := by
  intro n
  induction n with
  | zero =>
    intro ts acc out names hsz h
    cases ts with
    | nil => simp_arith at hsz
    | cons t r => simp_arith at hsz
  | succ n IH =>
    intro ts acc out names hsz h
    cases ts with
    | nil =>
      rw [parseTokenStreamInIteratorPattern.eq_def] at h
      simp at h
      obtain ⟨h1, h2⟩ := h
      subst h2
      simp [scalarPlaceholderOccs]
    | cons tok rest =>
      have hszr : sizeOf rest ≤ n := by simp_arith at hsz; omega
      cases tok with
      | group d ts2 gsp =>
        have hszg : sizeOf ts2 ≤ n := by simp_arith at hsz; omega
        rw [parseTokenStreamInIteratorPattern.eq_def] at h
        cases hg : parseGroupInIteratorPattern d ts2 gsp acc with
        | ok p =>
          obtain ⟨g, acc2⟩ := p
          cases hr : parseTokenStreamInIteratorPattern rest acc2 with
          | ok q =>
            obtain ⟨out2, acc3⟩ := q
            simp [hg, hr] at h
            obtain ⟨h1, h2⟩ := h
            rw [parseGroupInIteratorPattern.eq_def] at hg
            cases hi : parseTokenStreamInIteratorPattern ts2 acc with
            | ok pq =>
              obtain ⟨inner, acca⟩ := pq
              simp [hi] at hg
              obtain ⟨hg1, hg2⟩ := hg
              have e1 := IH ts2 acc inner acca hszg hi
              have e2 := IH rest acc2 out2 acc3 hszr hr
              subst h2
              rw [e2, ← hg2, e1]
              simp [scalarPlaceholderOccs, List.foldl_append]
            | err e => simp [hi] at hg
            | panicked m => simp [hi] at hg
          | err e => simp [hg, hr] at h
          | panicked m => simp [hg, hr] at h
        | err e => simp [hg] at h
        | panicked m => simp [hg] at h
      | ident nm sp =>
        rw [parseTokenStreamInIteratorPattern.eq_def] at h
        cases hr : parseTokenStreamInIteratorPattern rest acc with
        | ok q =>
          obtain ⟨out2, acc2⟩ := q
          simp [hr] at h
          obtain ⟨h1, h2⟩ := h
          have e2 := IH rest acc out2 acc2 hszr hr
          subst h2
          rw [e2]
          simp [scalarPlaceholderOccs]
        | err e => simp [hr] at h
        | panicked m => simp [hr] at h
      | lit raw sp =>
        rw [parseTokenStreamInIteratorPattern.eq_def] at h
        cases hl : parseLiteral raw sp with
        | ok i =>
          cases hr : parseTokenStreamInIteratorPattern rest acc with
          | ok q =>
            obtain ⟨out2, acc2⟩ := q
            simp [hl, hr] at h
            obtain ⟨h1, h2⟩ := h
            have e2 := IH rest acc out2 acc2 hszr hr
            subst h2
            rw [e2]
            simp [scalarPlaceholderOccs]
          | err e => simp [hl, hr] at h
          | panicked m => simp [hl, hr] at h
        | err e => simp [hl] at h
        | panicked m => simp [hl] at h
      | punct ch spc sp =>
        by_cases hch : ch = '#'
        · subst hch
          cases rest with
          | nil =>
            simp [parseTokenStreamInIteratorPattern.eq_def] at h
            obtain ⟨h1, h2⟩ := h
            subst h2
            simp [scalarPlaceholderOccs]
          | cons tok2 rest2 =>
            have hszr2 : sizeOf rest2 ≤ n := by simp_arith at hsz; omega
            cases tok2 with
            | ident nm isp =>
              rw [parseTokenStreamInIteratorPattern.eq_def] at h
              cases hr : parseTokenStreamInIteratorPattern rest2
                  (if nm ∈ acc then acc else acc ++ [nm]) with
              | ok q =>
                obtain ⟨out2, acc2⟩ := q
                simp [hr] at h
                obtain ⟨h1, h2⟩ := h
                have e2 := IH rest2 (if nm ∈ acc then acc else acc ++ [nm]) out2 acc2 hszr2 hr
                subst h2
                rw [e2]
                simp [scalarPlaceholderOccs, insName]
              | err e => simp [hr] at h
              | panicked m => simp [hr] at h
            | group d2 ts2 gsp2 =>
              cases d2 with
              | paren =>
                rw [parseTokenStreamInIteratorPattern.eq_def] at h
                cases hs : parseSeparator rest2 gsp2 with
                | ok p => simp [hs] at h
                | err e => simp [hs] at h
                | panicked m => simp [hs] at h
              | brace =>
                rw [parseTokenStreamInIteratorPattern.eq_def] at h
                cases hr : parseTokenStreamInIteratorPattern
                    (.group .brace ts2 gsp2 :: rest2) acc with
                | ok q =>
                  obtain ⟨out2, acc2⟩ := q
                  simp [hr] at h
                  obtain ⟨h1, h2⟩ := h
                  have hszgr : sizeOf (Tok.group Delim.brace ts2 gsp2 :: rest2) ≤ n := by
                    simp_arith at hsz ⊢; omega
                  have e2 := IH _ acc out2 acc2 hszgr hr
                  subst h2
                  rw [e2]
                  simp [scalarPlaceholderOccs]
                | err e => simp [hr] at h
                | panicked m => simp [hr] at h
              | bracket =>
                rw [parseTokenStreamInIteratorPattern.eq_def] at h
                cases hr : parseTokenStreamInIteratorPattern
                    (.group .bracket ts2 gsp2 :: rest2) acc with
                | ok q =>
                  obtain ⟨out2, acc2⟩ := q
                  simp [hr] at h
                  obtain ⟨h1, h2⟩ := h
                  have hszgr : sizeOf (Tok.group Delim.bracket ts2 gsp2 :: rest2) ≤ n := by
                    simp_arith at hsz ⊢; omega
                  have e2 := IH _ acc out2 acc2 hszgr hr
                  subst h2
                  rw [e2]
                  simp [scalarPlaceholderOccs]
                | err e => simp [hr] at h
                | panicked m => simp [hr] at h
              | none =>
                rw [parseTokenStreamInIteratorPattern.eq_def] at h
                cases hr : parseTokenStreamInIteratorPattern
                    (.group .none ts2 gsp2 :: rest2) acc with
                | ok q =>
                  obtain ⟨out2, acc2⟩ := q
                  simp [hr] at h
                  obtain ⟨h1, h2⟩ := h
                  have hszgr : sizeOf (Tok.group Delim.none ts2 gsp2 :: rest2) ≤ n := by
                    simp_arith at hsz ⊢; omega
                  have e2 := IH _ acc out2 acc2 hszgr hr
                  subst h2
                  rw [e2]
                  simp [scalarPlaceholderOccs]
                | err e => simp [hr] at h
                | panicked m => simp [hr] at h
            | punct c2 s2 p2 =>
              rw [parseTokenStreamInIteratorPattern.eq_def] at h
              cases hr : parseTokenStreamInIteratorPattern (.punct c2 s2 p2 :: rest2) acc with
              | ok q =>
                obtain ⟨out2, acc2⟩ := q
                simp [hr] at h
                obtain ⟨h1, h2⟩ := h
                have hszgr : sizeOf (Tok.punct c2 s2 p2 :: rest2) ≤ n := by
                  simp_arith at hsz ⊢; omega
                have e2 := IH _ acc out2 acc2 hszgr hr
                subst h2
                rw [e2]
                simp [scalarPlaceholderOccs]
              | err e => simp [hr] at h
              | panicked m => simp [hr] at h
            | lit r2 p2 =>
              rw [parseTokenStreamInIteratorPattern.eq_def] at h
              cases hr : parseTokenStreamInIteratorPattern (.lit r2 p2 :: rest2) acc with
              | ok q =>
                obtain ⟨out2, acc2⟩ := q
                simp [hr] at h
                obtain ⟨h1, h2⟩ := h
                have hszgr : sizeOf (Tok.lit r2 p2 :: rest2) ≤ n := by
                  simp_arith at hsz ⊢; omega
                have e2 := IH _ acc out2 acc2 hszgr hr
                subst h2
                rw [e2]
                simp [scalarPlaceholderOccs]
              | err e => simp [hr] at h
              | panicked m => simp [hr] at h
        · rw [parseTokenStreamInIteratorPattern.eq_def] at h
          cases hr : parseTokenStreamInIteratorPattern rest acc with
          | ok q =>
            obtain ⟨out2, acc2⟩ := q
            simp [hch, hr] at h
            obtain ⟨h1, h2⟩ := h
            have e2 := IH rest acc out2 acc2 hszr hr
            subst h2
            rw [e2]
            simp [scalarPlaceholderOccs, hch]
          | err e => simp [hch, hr] at h
          | panicked m => simp [hch, hr] at h

/-- Wrapper of the recording lemma without the size fuel. -/
theorem pii_records :
    ∀ (ts : List Tok) (acc : List String) (out : List Instr) (names : List String),
      parseTokenStreamInIteratorPattern ts acc = .ok (out, names) →
      names = (scalarPlaceholderOccs ts).foldl insName acc :=
  fun ts acc out names h => pii_records_aux (sizeOf ts) ts acc out names (le_refl _) h

/-- Push-if-absent preserves the no-duplicates invariant. -/
theorem foldl_insName_nodup :
    ∀ (l : List String) (acc : List String), acc.Nodup → (l.foldl insName acc).Nodup := by
  intro l
  induction l with
  | nil => intro acc h; simpa using h
  | cons x xs IHl =>
    intro acc h
    simp only [List.foldl_cons]
    apply IHl
    by_cases hx : x ∈ acc
    · simpa [insName, hx] using h
    · simp [insName, hx, List.nodup_append, h]

/-- Length of one zip application. -/
theorem zipStep_length (acc : List (List Nat)) (next : List Nat) :
    (zipStep acc next).length = min acc.length next.length := by
  simp [zipStep]

/-- Length of the folded zip chain. -/
theorem foldl_zipStep_length :
    ∀ (ls : List (List Nat)) (init : List (List Nat)),
      (ls.foldl zipStep init).length = ls.foldl (fun a l => min a l.length) init.length := by
  intro ls
  induction ls with
  | nil => intro init; rfl
  | cons hd tl IHl =>
    intro init
    simp only [List.foldl_cons]
    rw [IHl, zipStep_length]

/-- A min fold is bounded by its initial value. -/
theorem foldl_min_le_init : ∀ (ls : List Nat) (a : Nat), ls.foldl min a ≤ a := by
  intro ls
  induction ls with
  | nil => intro a; exact le_refl a
  | cons hd tl IHl =>
    intro a
    simp only [List.foldl_cons]
    exact le_trans (IHl (min a hd)) (min_le_left a hd)

/-- A min fold is bounded by every member. -/
theorem foldl_min_le_mem : ∀ (ls : List Nat) (a b : Nat), b ∈ ls → ls.foldl min a ≤ b := by
  intro ls
  induction ls with
  | nil => intro a b hb; simp at hb
  | cons hd tl IHl =>
    intro a b hb
    simp only [List.foldl_cons]
    rcases List.mem_cons.mp hb with rfl | hmem
    · exact le_trans (foldl_min_le_init tl (min a b)) (min_le_right a b)
    · exact IHl (min a hd) b hmem

/-- A min fold is attained at the initial value or at a member. -/
theorem foldl_min_attained :
    ∀ (ls : List Nat) (a : Nat), ls.foldl min a = a ∨ ∃ b ∈ ls, ls.foldl min a = b := by
  intro ls
  induction ls with
  | nil => intro a; exact Or.inl rfl
  | cons hd tl IHl =>
    intro a
    simp only [List.foldl_cons]
    rcases IHl (min a hd) with heq | ⟨b, hb, heq⟩
    · rcases min_choice a hd with hmin | hmin
      · exact Or.inl (by rw [heq, hmin])
      · exact Or.inr ⟨hd, List.mem_cons_self hd tl, by rw [heq, hmin]⟩
    · exact Or.inr ⟨b, List.mem_cons_of_mem hd hb, heq⟩

/-- C4: a successful restricted walk records the scalar placeholder
identifiers of the sub-template, including those inside nested groups, as
the duplicate-free first-occurrence list, and the generated zip chain
over the recorded names runs exactly the length of the shortest bound
sequence. -/
theorem c4_repetition_bound_names_and_zip :
    ∀ ts out names env,
      parseTokenStreamInIteratorPattern ts [] = .ok (out, names) →
      (names = firstOccs (scalarPlaceholderOccs ts) ∧ names.Nodup) ∧
      (names ≠ [] →
        (∀ nm ∈ names, (loopTuples names env).length ≤ (env nm).length) ∧
        (∃ nm ∈ names, (loopTuples names env).length = (env nm).length)) := by
  intro ts out names env h
  have hrec : names = firstOccs (scalarPlaceholderOccs ts) := pii_records ts [] out names h
  refine ⟨⟨hrec, ?_⟩, ?_⟩
  · rw [hrec]
    exact foldl_insName_nodup _ [] (by simp)
  · intro hne
    cases hn : names with
    | nil => exact absurd hn hne
    | cons n0 ns =>
      have hlen : (loopTuples (n0 :: ns) env).length =
          (ns.map (fun nm => (env nm).length)).foldl min (env n0).length := by
        simp only [loopTuples]
        rw [foldl_zipStep_length]
        simp [List.foldl_map]
      subst hn
      constructor
      · intro nm hmem
        rw [hlen]
        rcases List.mem_cons.mp hmem with rfl | hns
        · exact foldl_min_le_init _ _
        · exact foldl_min_le_mem _ _ _ (List.mem_map_of_mem _ hns)
      · rw [hlen]
        rcases foldl_min_attained (ns.map (fun nm => (env nm).length)) ((env n0).length) with
          ha | ⟨b, hb, he⟩
        · exact ⟨n0, List.mem_cons_self n0 ns, ha⟩
        · obtain ⟨nm, hnm, rfl⟩ := List.mem_map.mp hb
          exact ⟨nm, List.mem_cons_of_mem n0 hnm, he⟩

/-- C4 witness: sub-template interpolating `x` then `y`, with sequences
of lengths 3 and 2; the recorded list is the duplicate-free pair and the
zip chain runs 2 iterations. -/
theorem c4_repetition_bound_names_and_zip_witness :
    (["x", "y"] = firstOccs (scalarPlaceholderOccs
        [.punct '#' .alone 1, .ident "x" 2, .punct '#' .alone 3, .ident "y" 4]) ∧
      (["x", "y"] : List String).Nodup) ∧
    ((["x", "y"] : List String) ≠ [] →
      (∀ nm ∈ (["x", "y"] : List String),
        (loopTuples ["x", "y"] (fun nm => if nm = "x" then [10, 20, 30] else [1, 2])).length ≤
          ((fun nm => if nm = "x" then [10, 20, 30] else [1, 2]) nm).length) ∧
      (∃ nm ∈ (["x", "y"] : List String),
        (loopTuples ["x", "y"] (fun nm => if nm = "x" then [10, 20, 30] else [1, 2])).length =
          ((fun nm => if nm = "x" then [10, 20, 30] else [1, 2]) nm).length)) :=
  c4_repetition_bound_names_and_zip
    [.punct '#' .alone 1, .ident "x" 2, .punct '#' .alone 3, .ident "y" 4]
    [.appendToTokensIdent "x" 2, .appendToTokensIdent "y" 4] ["x", "y"]
    (fun nm => if nm = "x" then [10, 20, 30] else [1, 2])
    (by simp [parseTokenStreamInIteratorPattern.eq_def, interpolateToTokensIdent])

/-- C8: on a star-free, nested-pattern-free separator run the separator
parser consumes tokens up to the first top-level terminator `*`, returns
exactly the construction program of the consumed tokens (the same program
the main walker emits for them) together with the remaining cursor, and,
when the cursor is exhausted before any terminator, fails with the
unterminated-repetition error anchored at the repetition span. -/
theorem c8_separator_consume_and_unterminated :
    (∀ (pre : List Tok) (spc : Spacing) (ssp : Nat) (rest : List Tok) (ospan : Nat)
       (out : List Instr),
      hasTopLevelStar pre = false →
      hasNestedCandidate pre = false →
      parseTokenStream pre = .ok out →
      parseSeparatorR (pre ++ .punct '*' spc ssp :: rest) ospan = .ok (out, rest)) ∧
    (∀ (input : List Tok) (ospan : Nat) (out : List Instr),
      hasTopLevelStar input = false →
      hasNestedCandidate input = false →
      parseTokenStream input = .ok out →
      parseSeparatorR input ospan = .err (Err.new ospan msgUnterminated)) := by
  constructor
  · intro pre spc ssp rest ospan out hstar hnc hpt
    have h := sep_shift_aux (sizeOf pre) pre (.punct '*' spc ssp :: rest) ospan out (le_refl _)
      hstar hnc True.intro hpt
    rw [h, psrStar]
    simp
  · intro input ospan out hstar hnc hpt
    have h := sep_shift_aux (sizeOf input) input [] ospan out (le_refl _)
      hstar hnc True.intro hpt
    rw [List.append_nil] at h
    rw [h, psrNil]

/-- C8 witness: a comma separator terminated by a star (returning the
comma program and the remainder), and the same run without a terminator
(failing as unterminated at span 5). -/
theorem c8_separator_consume_and_unterminated_witness :
    parseSeparatorR [.punct ',' .alone 1, .punct '*' .alone 2, .ident "z" 9] 5 =
      .ok ([.appendPunct ',' .alone 1], [.ident "z" 9]) ∧
    parseSeparatorR [.punct ',' .alone 1] 5 = .err (Err.new 5 msgUnterminated) := by
  constructor
  · exact c8_separator_consume_and_unterminated.1 [.punct ',' .alone 1] .alone 2
      [.ident "z" 9] 5 [.appendPunct ',' .alone 1] rfl
      (by simp [hasNestedCandidate.eq_def])
      (by simp [parseTokenStream.eq_def, parsePunct])
  · exact c8_separator_consume_and_unterminated.2 [.punct ',' .alone 1] 5
      [.appendPunct ',' .alone 1] rfl
      (by simp [hasNestedCandidate.eq_def])
      (by simp [parseTokenStream.eq_def, parsePunct])

/-- A successful restricted walk implies the sub-template contains no
nested repetition candidate at any group depth: every arm of the walk
either descends in restricted mode or rejects the candidate; strong
induction on the size of the input. -/
theorem pii_ok_no_deep_candidate :
    ∀ (n : Nat) (ts : List Tok) (acc : List String) (out : List Instr) (names : List String),
      sizeOf ts ≤ n →
      parseTokenStreamInIteratorPattern ts acc = .ok (out, names) →
      hasNestedCandidateDeep ts = false := by
  intro n
  induction n with
  | zero =>
    intro ts acc out names hsz h
    cases ts with
    | nil => simp_arith at hsz
    | cons t r => simp_arith at hsz
  | succ n IH =>
    intro ts acc out names hsz h
    cases ts with
    | nil => simp [hasNestedCandidateDeep.eq_def]
    | cons tok rest =>
      have hszr : sizeOf rest ≤ n := by simp_arith at hsz; omega
      cases tok with
      | group d ts2 gsp =>
        have hszg : sizeOf ts2 ≤ n := by simp_arith at hsz; omega
        rw [parseTokenStreamInIteratorPattern.eq_def] at h
        cases hg : parseGroupInIteratorPattern d ts2 gsp acc with
        | ok p =>
          obtain ⟨g, acc2⟩ := p
          cases hr : parseTokenStreamInIteratorPattern rest acc2 with
          | ok q =>
            obtain ⟨out2, acc3⟩ := q
            rw [parseGroupInIteratorPattern.eq_def] at hg
            cases hi : parseTokenStreamInIteratorPattern ts2 acc with
            | ok pq =>
              obtain ⟨inner, acca⟩ := pq
              have e1 := IH ts2 acc inner acca hszg hi
              have e2 := IH rest acc2 out2 acc3 hszr hr
              simp [hasNestedCandidateDeep, e1, e2]
            | err e => simp [hi] at hg
            | panicked m => simp [hi] at hg
          | err e => simp [hg, hr] at h
          | panicked m => simp [hg, hr] at h
        | err e => simp [hg] at h
        | panicked m => simp [hg] at h
      | ident nm sp =>
        rw [parseTokenStreamInIteratorPattern.eq_def] at h
        cases hr : parseTokenStreamInIteratorPattern rest acc with
        | ok q =>
          obtain ⟨out2, acc2⟩ := q
          have e2 := IH rest acc out2 acc2 hszr hr
          simp [hasNestedCandidateDeep, e2]
        | err e => simp [hr] at h
        | panicked m => simp [hr] at h
      | lit raw sp =>
        rw [parseTokenStreamInIteratorPattern.eq_def] at h
        cases hl : parseLiteral raw sp with
        | ok i =>
          cases hr : parseTokenStreamInIteratorPattern rest acc with
          | ok q =>
            obtain ⟨out2, acc2⟩ := q
            have e2 := IH rest acc out2 acc2 hszr hr
            simp [hasNestedCandidateDeep, e2]
          | err e => simp [hl, hr] at h
          | panicked m => simp [hl, hr] at h
        | err e => simp [hl] at h
        | panicked m => simp [hl] at h
      | punct ch spc sp =>
        by_cases hch : ch = '#'
        · subst hch
          cases rest with
          | nil => simp [hasNestedCandidateDeep.eq_def]
          | cons tok2 rest2 =>
            have hszr2 : sizeOf rest2 ≤ n := by simp_arith at hsz; omega
            cases tok2 with
            | ident nm isp =>
              rw [parseTokenStreamInIteratorPattern.eq_def] at h
              cases hr : parseTokenStreamInIteratorPattern rest2
                  (if nm ∈ acc then acc else acc ++ [nm]) with
              | ok q =>
                obtain ⟨out2, acc2⟩ := q
                have e2 := IH rest2 (if nm ∈ acc then acc else acc ++ [nm]) out2 acc2 hszr2 hr
                simp [hasNestedCandidateDeep, e2]
              | err e => simp [hr] at h
              | panicked m => simp [hr] at h
            | group d2 ts2 gsp2 =>
              cases d2 with
              | paren =>
                rw [parseTokenStreamInIteratorPattern.eq_def] at h
                cases hs : parseSeparator rest2 gsp2 with
                | ok p => simp [hs] at h
                | err e => simp [hs] at h
                | panicked m => simp [hs] at h
              | brace =>
                rw [parseTokenStreamInIteratorPattern.eq_def] at h
                cases hr : parseTokenStreamInIteratorPattern
                    (.group .brace ts2 gsp2 :: rest2) acc with
                | ok q =>
                  obtain ⟨out2, acc2⟩ := q
                  have hszgr : sizeOf (Tok.group Delim.brace ts2 gsp2 :: rest2) ≤ n := by
                    simp_arith at hsz ⊢; omega
                  have e2 := IH _ acc out2 acc2 hszgr hr
                  rw [hasNestedCandidateDeep.eq_def]
                  simpa using e2
                | err e => simp [hr] at h
                | panicked m => simp [hr] at h
              | bracket =>
                rw [parseTokenStreamInIteratorPattern.eq_def] at h
                cases hr : parseTokenStreamInIteratorPattern
                    (.group .bracket ts2 gsp2 :: rest2) acc with
                | ok q =>
                  obtain ⟨out2, acc2⟩ := q
                  have hszgr : sizeOf (Tok.group Delim.bracket ts2 gsp2 :: rest2) ≤ n := by
                    simp_arith at hsz ⊢; omega
                  have e2 := IH _ acc out2 acc2 hszgr hr
                  rw [hasNestedCandidateDeep.eq_def]
                  simpa using e2
                | err e => simp [hr] at h
                | panicked m => simp [hr] at h
              | none =>
                rw [parseTokenStreamInIteratorPattern.eq_def] at h
                cases hr : parseTokenStreamInIteratorPattern
                    (.group .none ts2 gsp2 :: rest2) acc with
                | ok q =>
                  obtain ⟨out2, acc2⟩ := q
                  have hszgr : sizeOf (Tok.group Delim.none ts2 gsp2 :: rest2) ≤ n := by
                    simp_arith at hsz ⊢; omega
                  have e2 := IH _ acc out2 acc2 hszgr hr
                  rw [hasNestedCandidateDeep.eq_def]
                  simpa using e2
                | err e => simp [hr] at h
                | panicked m => simp [hr] at h
            | punct c2 s2 p2 =>
              rw [parseTokenStreamInIteratorPattern.eq_def] at h
              cases hr : parseTokenStreamInIteratorPattern (.punct c2 s2 p2 :: rest2) acc with
              | ok q =>
                obtain ⟨out2, acc2⟩ := q
                have hszgr : sizeOf (Tok.punct c2 s2 p2 :: rest2) ≤ n := by
                  simp_arith at hsz ⊢; omega
                have e2 := IH _ acc out2 acc2 hszgr hr
                rw [hasNestedCandidateDeep.eq_def]
                simpa using e2
              | err e => simp [hr] at h
              | panicked m => simp [hr] at h
            | lit r2 p2 =>
              rw [parseTokenStreamInIteratorPattern.eq_def] at h
              cases hr : parseTokenStreamInIteratorPattern (.lit r2 p2 :: rest2) acc with
              | ok q =>
                obtain ⟨out2, acc2⟩ := q
                have hszgr : sizeOf (Tok.lit r2 p2 :: rest2) ≤ n := by
                  simp_arith at hsz ⊢; omega
                have e2 := IH _ acc out2 acc2 hszgr hr
                rw [hasNestedCandidateDeep.eq_def]
                simpa using e2
              | err e => simp [hr] at h
              | panicked m => simp [hr] at h
        · rw [parseTokenStreamInIteratorPattern.eq_def] at h
          cases hr : parseTokenStreamInIteratorPattern rest acc with
          | ok q =>
            obtain ⟨out2, acc2⟩ := q
            have e2 := IH rest acc out2 acc2 hszr hr
            simp [hasNestedCandidateDeep, hch, e2]
          | err e => simp [hch, hr] at h
          | panicked m => simp [hch, hr] at h

/-- C6 amended: a nested repetition marker in the sub-template (at any
group depth, since the restricted walk descends into groups in
restricted mode) prevents compilation, the restricted walk never
succeeding; when the walk or the separator parser meets such a marker
whose separator clause parses up to its terminator, the failure is the
nested-repetition diagnostic whose start span is the inner parenthesized
group span and whose end span is the span of the last instruction
emitted for the inner separator clause, defaulting to the group span
when that separator is empty.  Only a marker at the top level of the
separator token run is rejected this way: a repetition placeholder
inside a group within the separator is walked in unrestricted mode and
compiles as an ordinary nested loop, as the concrete template
`#( #x ) { #( #y )* } *` shows. -/
theorem c6_nested_repetition_scope_and_spans :
    (∀ (ts : List Tok) (acc : List String),
      hasNestedCandidateDeep ts = true →
      ∀ (out : List Instr) (names : List String),
        parseTokenStreamInIteratorPattern ts acc ≠ .ok (out, names)) ∧
    (∀ (spc : Spacing) (hsp : Nat) (ts : List Tok) (gsp : Nat) (rest : List Tok)
      (acc : List String) (sep : List Instr) (rsub : {r : List Tok // sizeOf r ≤ sizeOf rest}),
      parseSeparator rest gsp = .ok (sep, rsub) →
      parseTokenStreamInIteratorPattern
          (.punct '#' spc hsp :: .group .paren ts gsp :: rest) acc =
        .err ((Err.new gsp msgNested).endSpan (lastSpan sep gsp)) ∧
      (∀ ospan, parseSeparatorR (.punct '#' spc hsp :: .group .paren ts gsp :: rest) ospan =
        .err ((Err.new gsp msgNested).endSpan (lastSpan sep gsp)))) ∧
    quote [.punct '#' .alone 1,
           .group .paren [.punct '#' .alone 2, .ident "x" 3] 4,
           .group .brace [.punct '#' .alone 5,
                          .group .paren [.punct '#' .alone 6, .ident "y" 7] 8,
                          .punct '*' .alone 9] 10,
           .punct '*' .alone 11] =
      .program [.forLoopSep ["x"]
        [.appendGroup .brace [.forLoop ["y"] [.appendToTokensIdent "y" 7]] 10]
        [.appendToTokensIdent "x" 3]] := by
  refine ⟨?_, ?_, ?_⟩
  · intro ts acc hdeep out names h
    have hfalse := pii_ok_no_deep_candidate (sizeOf ts) ts acc out names (le_refl _) h
    rw [hfalse] at hdeep
    exact absurd hdeep (by decide)
  · intro spc hsp ts gsp rest acc sep rsub h
    constructor
    · rw [parseTokenStreamInIteratorPattern.eq_def]
      simp [h]
    · intro ospan
      simp only [parseSeparatorR]
      rw [parseSeparator.eq_def]
      simp [h]
  · simp [quote, parseTokenStream.eq_def, parseSeparator.eq_def, parseGroup.eq_def,
      interpolateIteratorGroup.eq_def, parseTokenStreamInIteratorPattern.eq_def,
      parseGroupInner, interpolateToTokensIdent]

/-- C6 amended witness: the rejection half applied to the inner pattern
of the counterexample template (empty separator clause, star at span 7),
and the never-succeeds half applied to a sub-template with a deep nested
candidate. -/
theorem c6_nested_repetition_scope_and_spans_witness :
    parseTokenStreamInIteratorPattern
        [.punct '#' .alone 4,
         .group .paren [.punct '#' .alone 8, .ident "x" 9] 6,
         .punct '*' .alone 7] [] =
      .err ((Err.new 6 msgNested).endSpan (lastSpan [] 6)) ∧
    parseTokenStreamInIteratorPattern
        [.group .brace [.punct '#' .alone 12,
                        .group .paren [.ident "q" 13] 14] 15] [] ≠
      .ok ([], []) := by
  constructor
  · exact (c6_nested_repetition_scope_and_spans.2.1 .alone 4
      [.punct '#' .alone 8, .ident "x" 9] 6 [.punct '*' .alone 7] [] [] ⟨[], by simp⟩
      (by simp [parseSeparator.eq_def])).1
  · exact c6_nested_repetition_scope_and_spans.1
      [.group .brace [.punct '#' .alone 12, .group .paren [.ident "q" 13] 14] 15] []
      (by simp [hasNestedCandidateDeep.eq_def]) [] []

end ProcQuote
